import Mathlib

/-!
Verification development for the MCP Inspector "Apps" embedding pipeline
(`AppRenderer.tsx`, `AppsTab.tsx`).

The development shallowly embeds the content-resolution block, the
AppBridge setup/teardown effect lifecycle of `AppRenderer`, and the
tool-filtering effect of `AppsTab`, and proves the specified properties
about these embeddings.
-/

set_option maxHeartbeats 1000000

namespace Inspector

/-! ## JSON value model

JavaScript values produced by `JSON.parse`.  Numbers are modelled as
integers; no verified property depends on numeric values beyond their
truthiness.  `JSON.parse` itself is a language builtin, so it is kept
abstract: resolution takes the parse outcome (`none` = the parse threw)
as an argument.
-/

inductive JValue where
  | null : JValue
  | bool : Bool → JValue
  | num : Int → JValue
  | str : String → JValue
  | arr : List JValue → JValue
  | obj : List (String × JValue) → JValue

/-- JavaScript truthiness of a JSON value (`null`, `false`, `0`, `""` are
falsy; arrays and objects are always truthy). -/
def truthy : JValue → Bool
  | JValue.null => false
  | JValue.bool b => b
  | JValue.num n => n ≠ 0
  | JValue.str s => s ≠ ""
  | JValue.arr _ => true
  | JValue.obj _ => true

/-- Last-binding-wins lookup, matching how `JSON.parse` materialises
duplicate object keys. -/
def lookupLast (k : String) : List (String × JValue) → Option JValue
  | [] => none
  | (k1, v) :: rest =>
    match lookupLast k rest with
    | some r => some r
    | none => if k1 = k then some v else none

/-- Pure property read `v[k]`: `none` models JavaScript `undefined`
(missing field, or property access on a non-object primitive). -/
def objField (v : JValue) (k : String) : Option JValue :=
  match v with
  | JValue.obj fields => lookupLast k fields
  | _ => none

/-- Property read as executed by the source: accessing a property of
`null` throws a `TypeError` (modelled as `Except.error`), while access on
any other value yields the field or `undefined`. -/
def getFieldE (v : JValue) (k : String) : Except Unit (Option JValue) :=
  match v with
  | JValue.null => Except.error ()
  | _ => Except.ok (objField v k)

/-- Whether a (possibly `undefined`) value is the string literal `"text"`,
i.e. the `c.type === "text"` comparison. -/
def isTextStr : Option JValue → Bool
  | some (JValue.str s) => s = "text"
  | _ => false

/-- The predicate of `contents.find((c) => c.type === "text" && c.text)`,
read off against pure property access: the entry's `type` is `"text"` and
its `text` field is truthy. -/
def qualifies (e : JValue) : Bool :=
  isTextStr (objField e "type") &&
    (match objField e "text" with
     | some v => truthy v
     | none => false)

/-- The `text` field of an entry (`JValue.null` when absent; only ever
used on entries whose `text` is present and truthy). -/
def entryText (e : JValue) : JValue :=
  match objField e "text" with
  | some v => v
  | none => JValue.null

/-- Whether a JSON value is a string. -/
def isStrVal : JValue → Bool
  | JValue.str _ => true
  | JValue.null => false
  | JValue.bool _ => false
  | JValue.num _ => false
  | JValue.arr _ => false
  | JValue.obj _ => false

/-- Whether a JSON value is a non-empty string. -/
def strNonEmpty : JValue → Bool
  | JValue.str s => s ≠ ""
  | JValue.null => false
  | JValue.bool _ => false
  | JValue.num _ => false
  | JValue.arr _ => false
  | JValue.obj _ => false

/-- The entry's `text` field is absent or a string — the shape the
source's type annotation `(c: \x7b type: string; text?: string \x7d)`
declares. -/
def textOk (e : JValue) : Bool :=
  match objField e "text" with
  | none => true
  | some v => isStrVal v

/-- The entry's `text` field is a non-empty string. -/
def nonEmptyText (e : JValue) : Bool :=
  match objField e "text" with
  | none => false
  | some v => strNonEmpty v

/-- Embedding of `contents.find((c) => c.type === "text" && c.text)`:
walks the entries in order, throwing (`Except.error`) when the callback
dereferences a `null` entry, and otherwise returning the first entry
satisfying the predicate. -/
def findTextEntryE : List JValue → Except Unit (Option JValue)
  | [] => Except.ok none
  | c :: rest =>
    match getFieldE c "type" with
    | Except.error e => Except.error e
    | Except.ok t =>
      if isTextStr t then
        match getFieldE c "text" with
        | Except.error e => Except.error e
        | Except.ok tx =>
          match tx with
          | some v => if truthy v then Except.ok (some c) else findTextEntryE rest
          | none => findTextEntryE rest
      else findTextEntryE rest

/-- Embedding of the content-resolution block of `AppRenderer.setupApp`
(the `let htmlContent = resourceContent; try { ... } catch { }` block):
given the outcome of `JSON.parse resourceContent` (`parsed`) and the raw
payload, produce the value written into the iframe document.  Any throw
inside the `try` (parse failure or `null`-entry property access) falls
back to the raw payload, so resolution is total. -/
def resolveContent (parsed : Option JValue) (raw : String) : JValue :=
  match parsed with
  | none => JValue.str raw
  | some p =>
    match getFieldE p "contents" with
    | Except.error _ => JValue.str raw
    | Except.ok contents =>
      match contents with
      | some (JValue.arr entries) =>
        match findTextEntryE entries with
        | Except.error _ => JValue.str raw
        | Except.ok none => JValue.str raw
        | Except.ok (some e) =>
          match objField e "text" with
          | some v => if truthy v then v else JValue.str raw
          | none => JValue.str raw
      | _ => JValue.str raw

/-! ### Resolution lemmas -/

theorem getFieldE_of_ne_null (v : JValue) (k : String) (h : v ≠ JValue.null) :
    getFieldE v k = Except.ok (objField v k) := by
  cases v <;> simp [getFieldE] at h ⊢

theorem objField_ne_null {p : JValue} {k : String} {v : JValue}
    (h : objField p k = some v) : p ≠ JValue.null := by
  intro hp
  subst hp
  simp [objField] at h

theorem qualifies_text {e : JValue} (h : qualifies e = true) :
    ∃ v, objField e "text" = some v ∧ truthy v = true := by
  unfold qualifies at h
  rw [Bool.and_eq_true] at h
  obtain ⟨_, h2⟩ := h
  cases htx : objField e "text" with
  | none => rw [htx] at h2; simp at h2
  | some v => rw [htx] at h2; exact ⟨v, rfl, h2⟩

/-- On entry lists free of `null` entries, the thrown-exception search
agrees with the pure first-match search. -/
theorem findTextEntryE_of_no_null (entries : List JValue)
    (h : ∀ e ∈ entries, e ≠ JValue.null) :
    findTextEntryE entries = Except.ok (entries.find? qualifies) := by
  induction entries with
  | nil => rfl
  | cons c rest ih =>
    have hc : c ≠ JValue.null := h c (List.mem_cons_self c rest)
    have hrest : ∀ e ∈ rest, e ≠ JValue.null := fun e he => h e (List.mem_cons_of_mem c he)
    have ih' := ih hrest
    have hgty := getFieldE_of_ne_null c "type" hc
    have hgtx := getFieldE_of_ne_null c "text" hc
    by_cases hty : isTextStr (objField c "type")
    · cases htx : objField c "text" with
      | none =>
        have hq : qualifies c = false := by
          unfold qualifies
          rw [htx]
          simp
        simp [findTextEntryE, hgty, hgtx, htx, hty, List.find?, hq, ih']
      | some v =>
        by_cases htr : truthy v
        · have hq : qualifies c = true := by
            unfold qualifies
            rw [htx]
            simp [hty, htr]
          simp [findTextEntryE, hgty, hgtx, htx, hty, htr, List.find?, hq]
        · have hq : qualifies c = false := by
            unfold qualifies
            rw [htx]
            simp [htr]
          simp [findTextEntryE, hgty, hgtx, htx, hty, htr, List.find?, hq, ih']
    · have hq : qualifies c = false := by
        unfold qualifies
        simp [hty]
      simp [findTextEntryE, hgty, hty, List.find?, hq, ih']

/-- Soundness of the search: whenever the executed `find` returns an
entry (no throw happened on the way), that entry is exactly the first
entry satisfying the pure predicate. -/
theorem findTextEntryE_sound {entries : List JValue} {e : JValue}
    (h : findTextEntryE entries = Except.ok (some e)) :
    entries.find? qualifies = some e := by
  induction entries with
  | nil => simp [findTextEntryE] at h
  | cons c rest ih =>
    by_cases hc : c = JValue.null
    · subst hc
      simp [findTextEntryE, getFieldE] at h
    · have hgty := getFieldE_of_ne_null c "type" hc
      have hgtx := getFieldE_of_ne_null c "text" hc
      by_cases hty : isTextStr (objField c "type")
      · cases htx : objField c "text" with
        | none =>
          simp [findTextEntryE, hgty, hgtx, htx, hty] at h
          have hq : qualifies c = false := by
            unfold qualifies
            rw [htx]
            simp
          simp only [List.find?, hq]
          exact ih h
        | some v =>
          by_cases htr : truthy v
          · simp [findTextEntryE, hgty, hgtx, htx, hty, htr] at h
            have hq : qualifies c = true := by
              unfold qualifies
              rw [htx]
              simp [hty, htr]
            simp only [List.find?, hq]
            rw [h]
          · simp [findTextEntryE, hgty, hgtx, htx, hty, htr] at h
            have hq : qualifies c = false := by
              unfold qualifies
              rw [htx]
              simp [htr]
            simp only [List.find?, hq]
            exact ih h
      · simp [findTextEntryE, hgty, hty] at h
        have hq : qualifies c = false := by
          unfold qualifies
          simp [hty]
        simp only [List.find?, hq]
        exact ih h

/-- If no entry of the list satisfies the pure predicate, resolution of
an envelope with that contents list falls back to the raw payload,
whether or not the executed search throws. -/
theorem resolveContent_raw_of_no_qualifying {p : JValue} {entries : List JValue}
    (raw : String)
    (hc : objField p "contents" = some (JValue.arr entries))
    (h : ∀ e ∈ entries, qualifies e = false) :
    resolveContent (some p) raw = JValue.str raw := by
  have hg := getFieldE_of_ne_null p "contents" (objField_ne_null hc)
  cases hf : findTextEntryE entries with
  | error err => simp [resolveContent, hg, hc, hf]
  | ok r =>
    cases r with
    | none => simp [resolveContent, hg, hc, hf]
    | some e =>
      have hfind := findTextEntryE_sound hf
      have hq := List.find?_some hfind
      have hmem := List.mem_of_find?_eq_some hfind
      rw [h e hmem] at hq
      exact absurd hq (by simp)

/-! ## AppRenderer lifecycle model

The component's React state (`useState` hooks plus the `bridgeRef`), the
AppBridge setup routine `setupApp`, and the two effects of `AppRenderer`
(the resource-fetch effect and the bridge setup/teardown effect), driven
by a list of render steps.  Bridges are identified by the `Nat` counter
that allocates them.
-/

/-- The component's observable state: the `loading`, `error` and
`initialized` `useState` hooks and the `bridgeRef` ref (identified by
bridge id). -/
structure CState where
  loading : Bool
  error : Option String
  initialized : Bool
  bridgeRef : Option Nat
deriving DecidableEq

/-- A message the guest app delivers through the bridge after a
successful `connect`: the `oninitialized` or `onerror` callback firing. -/
inductive GuestEvent where
  | initialized : GuestEvent
  | errored : String → GuestEvent
deriving DecidableEq

/-- A JavaScript exception value as seen by the `catch` block: either an
`Error` object carrying a message, or a non-`Error` value. -/
inductive JsErr where
  | errObj : String → JsErr
  | nonError : JsErr
deriving DecidableEq

/-- The reason the `catch` block reports:
`err instanceof Error ? err.message : "Failed to set up app"`. -/
def errMessage : JsErr → String
  | JsErr.errObj m => m
  | JsErr.nonError => "Failed to set up app"

/-- The environment of one setup attempt: what the host DOM and the guest
do at each suspension point of `setupApp`. -/
structure HostEnv where
  iframeDocAccessible : Bool
  contentWindowPresent : Bool
  connectError : Option JsErr
  guestEvents : List GuestEvent
  closeFails : Bool
deriving DecidableEq

/-- Observable actions of the embedding pipeline, recorded as a trace. -/
inductive Event where
  | readRequested : String → Event
  | bridgeCreated : Nat → Event
  | docWritten : Nat → JValue → Event
  | connectStarted : Nat → Event
  | becameReady : Nat → Event
  | guestErrored : Nat → String → Event
  | setupFailed : Nat → String → Event
  | bridgeClosed : Nat → Event

/-- One guest callback firing: `oninitialized` flips `initialized` on and
`loading` off; `onerror` stores `error.message || "An error occurred"`. -/
def applyGuestEvent (bid : Nat) (cs : CState) : GuestEvent → CState × Event
  | GuestEvent.initialized =>
    ({cs with initialized := true, loading := false}, Event.becameReady bid)
  | GuestEvent.errored m =>
    ({cs with error := some (if m = "" then "An error occurred" else m)},
     Event.guestErrored bid m)

/-- All guest callbacks firing in order. -/
def applyGuestEvents (bid : Nat) (cs : CState) : List GuestEvent → CState × List Event
  | [] => (cs, [])
  | g :: gs =>
    let r := applyGuestEvent bid cs g
    let rest := applyGuestEvents bid r.1 gs
    (rest.1, r.2 :: rest.2)

/-- Embedding of `setupApp`: constructs the bridge (always the first,
synchronous step), checks the iframe document, resolves and writes the
content, checks `contentWindow`, connects, and on success stores the
bridge in `bridgeRef` and lets the guest's callbacks fire.  Every throw is
caught by the trailing `catch`, which stores the message in `error` and
clears `loading` — the function is total, no failure escapes. -/
def setupApp (env : HostEnv) (bid : Nat) (raw : String) (parsed : Option JValue)
    (cs : CState) : CState × List Event :=
  if env.iframeDocAccessible = false then
    ({cs with error := some "Could not access iframe document", loading := false},
     [Event.bridgeCreated bid, Event.setupFailed bid "Could not access iframe document"])
  else
    let html := resolveContent parsed raw
    if env.contentWindowPresent = false then
      ({cs with error := some "Iframe contentWindow not available", loading := false},
       [Event.bridgeCreated bid, Event.docWritten bid html,
        Event.setupFailed bid "Iframe contentWindow not available"])
    else
      match env.connectError with
      | some e =>
        ({cs with error := some (errMessage e), loading := false},
         [Event.bridgeCreated bid, Event.docWritten bid html,
          Event.connectStarted bid, Event.setupFailed bid (errMessage e)])
      | none =>
        let r := applyGuestEvents bid {cs with bridgeRef := some bid} env.guestEvents
        (r.1,
         Event.bridgeCreated bid :: Event.docWritten bid html ::
           Event.connectStarted bid :: r.2)

/-- The props `AppRenderer` receives on one render, together with the
oracle outcomes of the external world for that render (`parsed` stands
for `JSON.parse resourceContent`, `env` for the DOM/guest behaviour of a
setup started on this render). -/
structure Props where
  resourceUri : Option String
  permissions : Option JValue
  resourceContent : String
  parsed : Option JValue
  hasClient : Bool
  env : HostEnv

/-- Full machine state: component state plus React's effect bookkeeping
(the registered cleanup of the setup effect, identified by the bridge it
captured; the dependency arrays of the last run of each effect; the
fresh-id counter). -/
structure MState where
  cs : CState
  cleanup : Option Nat
  lastUri : Option (Option String)
  lastDeps : Option (String × Bool)
  nextId : Nat

/-- State on mount: `loading = true`, no error, not initialized, no
bridge, no effect has run yet. -/
def initM : MState :=
  { cs := { loading := true, error := none, initialized := false, bridgeRef := none },
    cleanup := none, lastUri := none, lastDeps := none, nextId := 0 }

/-- Run the registered cleanup of the setup effect, if any: close the
captured bridge (its failure is swallowed by `.catch(console.error)`,
so the discard below is unconditional), null `bridgeRef`, reset
`initialized`.  Also used on unmount. -/
def cleanupRun (st : MState) : MState × List Event :=
  match st.cleanup with
  | some b =>
    ({st with cs := {st.cs with bridgeRef := none, initialized := false}, cleanup := none},
     [Event.bridgeClosed b])
  | none => (st, [])

/-- The resource-fetch effect (deps `[resourceUri, onReadResource]`): when
the uri changed since the last run, set `loading`, clear `error` and issue
the read — but only if a uri is declared. -/
def fetchStep (st : MState) (p : Props) : MState × List Event :=
  if st.lastUri = some p.resourceUri then (st, [])
  else
    match p.resourceUri with
    | some uri =>
      ({st with
          cs := {st.cs with loading := true, error := none},
          lastUri := some p.resourceUri},
       [Event.readRequested uri])
    | none => ({st with lastUri := some p.resourceUri}, [])

/-- The body of the setup effect: either return early (no content, no
mounted iframe — i.e. no `resourceUri`, so no iframe was rendered — or no
client) registering no cleanup, or run `setupApp` with a fresh bridge id
and register its cleanup. -/
def effectBody (st : MState) (p : Props) : MState × List Event :=
  if p.resourceContent = "" ∨ p.resourceUri = none ∨ p.hasClient = false then
    ({st with lastDeps := some (p.resourceContent, p.hasClient)}, [])
  else
    let s := setupApp p.env st.nextId p.resourceContent p.parsed st.cs
    ({st with
        cs := s.1,
        cleanup := some st.nextId,
        nextId := st.nextId + 1,
        lastDeps := some (p.resourceContent, p.hasClient)},
     s.2)

/-- The setup effect (deps `[resourceContent, mcpClient]`): when the deps
changed since the last run, React first runs the previously registered
cleanup, then the effect body. -/
def setupEffectStep (st : MState) (p : Props) : MState × List Event :=
  if st.lastDeps = some (p.resourceContent, p.hasClient) then (st, [])
  else
    let r := cleanupRun st
    let b := effectBody r.1 p
    (b.1, r.2 ++ b.2)

/-- One render commit: both effects run in declaration order. -/
def renderStep (st : MState) (p : Props) : MState × List Event :=
  let r1 := fetchStep st p
  let r2 := setupEffectStep r1.1 p
  (r2.1, r1.2 ++ r2.2)

/-- Run a sequence of renders from a given state, accumulating the
trace. -/
def runFrom (st : MState) : List Props → MState × List Event
  | [] => (st, [])
  | p :: ps =>
    let r := renderStep st p
    let rest := runFrom r.1 ps
    (rest.1, r.2 ++ rest.2)

/-- The full observable trace of a component life: mount, a sequence of
renders, and the unmount cleanup. -/
def fullTrace (ps : List Props) : List Event :=
  let r := runFrom initM ps
  r.2 ++ (cleanupRun r.1).2

/-- What one render of `AppRenderer` puts on screen, as a function of the
props, the component state and the external `buildAllowAttribute`
permission mapper `ba`. -/
structure RenderOut where
  configError : Bool
  loadingBanner : Bool
  errorBanner : Option String
  iframePresent : Bool
  iframeShown : Bool
  sandbox : String
  allow : String
  footerShown : Bool
deriving DecidableEq

/-- Embedding of the JSX returned by `AppRenderer`: without a
`resourceUri` only the configuration-error alert renders (no iframe);
otherwise the loading banner shows iff `loading`, the error banner shows
iff `error` is truthy (non-null, non-empty), the iframe is always present
with fixed sandbox flags and the computed allow attribute, and its
`display` style hides it exactly while `loading`. -/
def renderOf (ba : Option JValue → String) (p : Props) (cs : CState) : RenderOut :=
  if p.resourceUri = none then
    { configError := true, loadingBanner := false, errorBanner := none,
      iframePresent := false, iframeShown := false, sandbox := "", allow := "",
      footerShown := false }
  else
    { configError := false,
      loadingBanner := cs.loading,
      errorBanner :=
        match cs.error with
        | some m => if m = "" then none else some m
        | none => none,
      iframePresent := true,
      iframeShown := !cs.loading,
      sandbox := "allow-scripts allow-same-origin",
      allow := ba p.permissions,
      footerShown := cs.initialized }

/-! ## AppsTab model

The tool-filtering effect of `AppsTab`: the tools carrying UI metadata
and the selected-tool reset when the selection disappears from the
filtered list.
-/

/-- A tool as `AppsTab` sees it: its name and the
`_meta.ui.resourceUri` field. -/
structure ToolD where
  name : String
  resourceUri : Option String
deriving DecidableEq

/-- Embedding of the `hasUIMetadata` type guard:
`!!meta?.ui?.resourceUri` — present and truthy (non-empty). -/
def hasUIMetadata (t : ToolD) : Bool :=
  match t.resourceUri with
  | some s => s ≠ ""
  | none => false

/-- Embedding of the filter/reset effect of `AppsTab`: compute the
filtered app-tool list, and reset the selection to `null` when the
selected tool's name is no longer found in it. -/
def appsTabUpdate (tools : List ToolD) (selected : Option ToolD) :
    List ToolD × Option ToolD :=
  let filtered := tools.filter hasUIMetadata
  (filtered,
    match selected with
    | some st =>
      match filtered.find? (fun t => t.name == st.name) with
      | some _ => some st
      | none => none
    | none => none)

/-- Whether the `AppRenderer` subtree is mounted: `AppsTab` renders it
exactly when a tool is selected. -/
def rendererMounted (selected : Option ToolD) : Bool :=
  selected.isSome

/-! ## Lifecycle lemmas -/

theorem applyGuestEvents_initialized (ges : List GuestEvent) (bid : Nat) (cs : CState) :
    (applyGuestEvents bid cs ges).1.initialized = true ↔
      (cs.initialized = true ∨ GuestEvent.initialized ∈ ges) := by
  induction ges generalizing cs with
  | nil => simp [applyGuestEvents]
  | cons g gs ih =>
    cases g with
    | initialized =>
      simp [applyGuestEvents, applyGuestEvent, ih]
    | errored m =>
      simp only [applyGuestEvents, applyGuestEvent, ih]
      constructor
      · rintro (h | h)
        · exact Or.inl h
        · exact Or.inr (List.mem_cons_of_mem _ h)
      · rintro (h | h)
        · exact Or.inl h
        · rcases List.mem_cons.mp h with h | h
          · exact absurd h (by simp)
          · exact Or.inr h

theorem applyGuestEvents_loading_false (ges : List GuestEvent) (bid : Nat) (cs : CState)
    (h : cs.loading = false) :
    (applyGuestEvents bid cs ges).1.loading = false := by
  induction ges generalizing cs with
  | nil => simpa [applyGuestEvents]
  | cons g gs ih =>
    cases g with
    | initialized => exact ih _ rfl
    | errored m => exact ih _ h

theorem applyGuestEvents_loading_of_mem (ges : List GuestEvent) (bid : Nat) :
    GuestEvent.initialized ∈ ges →
    ∀ cs : CState, (applyGuestEvents bid cs ges).1.loading = false := by
  induction ges with
  | nil => intro h; simp at h
  | cons g gs ih =>
    intro h cs
    cases g with
    | initialized =>
      exact applyGuestEvents_loading_false gs bid _ rfl
    | errored m =>
      rcases List.mem_cons.mp h with h | h
      · exact absurd h (by simp)
      · exact ih h _

theorem applyGuestEvents_error_last (pre : List GuestEvent) (bid : Nat) (cs : CState)
    (m : String) :
    (applyGuestEvents bid cs (pre ++ [GuestEvent.errored m])).1.error
      = some (if m = "" then "An error occurred" else m) := by
  induction pre generalizing cs with
  | nil => simp [applyGuestEvents, applyGuestEvent]
  | cons g gs ih => cases g <;> exact ih _

/-! ### Create/close trace projection

For the teardown claim the trace is projected to its bridge-creation and
bridge-closure events; the lifecycle guarantees this projection is an
alternating create/close sequence over strictly increasing bridge ids.
-/

/-- Project an event to its create/close content: `(false, b)` for the
creation of bridge `b`, `(true, b)` for its closure. -/
def ccOf : Event → Option (Bool × Nat)
  | Event.bridgeCreated b => some (false, b)
  | Event.bridgeClosed b => some (true, b)
  | _ => none

/-- The create/close projection of a trace. -/
def ccProj (tr : List Event) : List (Bool × Nat) :=
  tr.filterMap ccOf

/-- The alternating sequence `create b₀, close b₀, create b₁, close b₁,
…` over a list of bridge ids. -/
def pairSeq : List Nat → List (Bool × Nat)
  | [] => []
  | b :: bs => (false, b) :: (true, b) :: pairSeq bs

theorem ccProj_nil : ccProj [] = [] := rfl

theorem ccProj_append (l1 l2 : List Event) :
    ccProj (l1 ++ l2) = ccProj l1 ++ ccProj l2 :=
  List.filterMap_append l1 l2 ccOf

theorem ccProj_cons_none (e : Event) (h : ccOf e = none) (l : List Event) :
    ccProj (e :: l) = ccProj l := by
  simp [ccProj, List.filterMap_cons, h]

theorem ccProj_cons_some (e : Event) {x : Bool × Nat} (h : ccOf e = some x) (l : List Event) :
    ccProj (e :: l) = x :: ccProj l := by
  simp [ccProj, List.filterMap_cons, h]

theorem ccProj_guestEvents (ges : List GuestEvent) (bid : Nat) (cs : CState) :
    ccProj (applyGuestEvents bid cs ges).2 = [] := by
  induction ges generalizing cs with
  | nil => rfl
  | cons g gs ih =>
    cases g with
    | initialized =>
      simp only [applyGuestEvents, applyGuestEvent]
      rw [ccProj_cons_none (Event.becameReady bid) rfl]
      exact ih _
    | errored m =>
      simp only [applyGuestEvents, applyGuestEvent]
      rw [ccProj_cons_none (Event.guestErrored bid m) rfl]
      exact ih _

theorem ccProj_setupApp (env : HostEnv) (bid : Nat) (raw : String)
    (parsed : Option JValue) (cs : CState) :
    ccProj (setupApp env bid raw parsed cs).2 = [(false, bid)] := by
  unfold setupApp
  by_cases h1 : env.iframeDocAccessible = false
  · rw [if_pos h1]; rfl
  · rw [if_neg h1]
    by_cases h2 : env.contentWindowPresent = false
    · rw [if_pos h2]; rfl
    · rw [if_neg h2]
      cases h3 : env.connectError with
      | some e => rfl
      | none =>
        dsimp only
        rw [ccProj_cons_some (Event.bridgeCreated bid) rfl,
          ccProj_cons_none (Event.docWritten bid (resolveContent parsed raw)) rfl,
          ccProj_cons_none (Event.connectStarted bid) rfl,
          ccProj_guestEvents]

/-! ### Step equations and case analysis -/

theorem cleanupRun_none {st : MState} (h : st.cleanup = none) :
    cleanupRun st = (st, []) := by
  unfold cleanupRun
  rw [h]

theorem cleanupRun_some {st : MState} {b : Nat} (h : st.cleanup = some b) :
    cleanupRun st =
      ({st with
          cs := {st.cs with bridgeRef := none, initialized := false},
          cleanup := none},
       [Event.bridgeClosed b]) := by
  unfold cleanupRun
  rw [h]

theorem effectBody_guard_true (st : MState) (p : Props)
    (hg : p.resourceContent = "" ∨ p.resourceUri = none ∨ p.hasClient = false) :
    effectBody st p
      = ({st with lastDeps := some (p.resourceContent, p.hasClient)}, []) := by
  unfold effectBody
  rw [if_pos hg]

theorem effectBody_guard_false (st : MState) (p : Props)
    (hg : ¬(p.resourceContent = "" ∨ p.resourceUri = none ∨ p.hasClient = false)) :
    effectBody st p
      = ({st with
            cs := (setupApp p.env st.nextId p.resourceContent p.parsed st.cs).1,
            cleanup := some st.nextId,
            nextId := st.nextId + 1,
            lastDeps := some (p.resourceContent, p.hasClient)},
         (setupApp p.env st.nextId p.resourceContent p.parsed st.cs).2) := by
  unfold effectBody
  rw [if_neg hg]

theorem setupEffectStep_skip (st : MState) (p : Props)
    (hd : st.lastDeps = some (p.resourceContent, p.hasClient)) :
    setupEffectStep st p = (st, []) := by
  unfold setupEffectStep
  rw [if_pos hd]

theorem setupEffectStep_run (st : MState) (p : Props)
    (hd : ¬st.lastDeps = some (p.resourceContent, p.hasClient)) :
    setupEffectStep st p
      = ((effectBody (cleanupRun st).1 p).1,
         (cleanupRun st).2 ++ (effectBody (cleanupRun st).1 p).2) := by
  unfold setupEffectStep
  rw [if_neg hd]

theorem fetchStep_facts (st : MState) (p : Props) :
    ccProj (fetchStep st p).2 = [] ∧ (fetchStep st p).1.cleanup = st.cleanup ∧
      (fetchStep st p).1.nextId = st.nextId := by
  unfold fetchStep
  by_cases h : st.lastUri = some p.resourceUri
  · rw [if_pos h]
    exact ⟨rfl, rfl, rfl⟩
  · rw [if_neg h]
    cases p.resourceUri with
    | some uri => exact ⟨rfl, rfl, rfl⟩
    | none => exact ⟨rfl, rfl, rfl⟩

/-- The setup effect's four observable outcomes on one render: no
create/close activity; a close only (deps changed, body returned early);
a create only (first setup); or a close followed by a create (teardown of
the previous bridge, then a fresh setup). -/
theorem setupEffectStep_cases (st : MState) (p : Props) :
    (ccProj (setupEffectStep st p).2 = [] ∧
       (setupEffectStep st p).1.cleanup = st.cleanup ∧
       (setupEffectStep st p).1.nextId = st.nextId)
    ∨ (∃ b, st.cleanup = some b ∧ ccProj (setupEffectStep st p).2 = [(true, b)] ∧
        (setupEffectStep st p).1.cleanup = none ∧
        (setupEffectStep st p).1.nextId = st.nextId)
    ∨ (st.cleanup = none ∧ ccProj (setupEffectStep st p).2 = [(false, st.nextId)] ∧
        (setupEffectStep st p).1.cleanup = some st.nextId ∧
        (setupEffectStep st p).1.nextId = st.nextId + 1)
    ∨ (∃ b, st.cleanup = some b ∧
        ccProj (setupEffectStep st p).2 = [(true, b), (false, st.nextId)] ∧
        (setupEffectStep st p).1.cleanup = some st.nextId ∧
        (setupEffectStep st p).1.nextId = st.nextId + 1) := by
  by_cases hd : st.lastDeps = some (p.resourceContent, p.hasClient)
  · rw [setupEffectStep_skip st p hd]
    exact Or.inl ⟨rfl, rfl, rfl⟩
  · rw [setupEffectStep_run st p hd]
    by_cases hg : p.resourceContent = "" ∨ p.resourceUri = none ∨ p.hasClient = false
    · cases hcl : st.cleanup with
      | none =>
        rw [cleanupRun_none hcl]
        rw [effectBody_guard_true st p hg]
        exact Or.inl ⟨rfl, hcl, rfl⟩
      | some b =>
        rw [cleanupRun_some hcl]
        rw [effectBody_guard_true _ p hg]
        exact Or.inr (Or.inl ⟨b, rfl, rfl, rfl, rfl⟩)
    · cases hcl : st.cleanup with
      | none =>
        rw [cleanupRun_none hcl]
        rw [effectBody_guard_false st p hg]
        refine Or.inr (Or.inr (Or.inl ⟨rfl, ?_, rfl, rfl⟩))
        dsimp only
        rw [List.nil_append, ccProj_setupApp]
      | some b =>
        rw [cleanupRun_some hcl]
        rw [effectBody_guard_false _ p hg]
        refine Or.inr (Or.inr (Or.inr ⟨b, rfl, ?_, rfl, rfl⟩))
        dsimp only
        rw [ccProj_append, ccProj_setupApp]
        rfl

/-- Same case analysis for a full render commit (the fetch effect adds no
create/close events and touches no effect bookkeeping). -/
theorem renderStep_cases (st : MState) (p : Props) :
    (ccProj (renderStep st p).2 = [] ∧ (renderStep st p).1.cleanup = st.cleanup ∧
       (renderStep st p).1.nextId = st.nextId)
    ∨ (∃ b, st.cleanup = some b ∧ ccProj (renderStep st p).2 = [(true, b)] ∧
        (renderStep st p).1.cleanup = none ∧ (renderStep st p).1.nextId = st.nextId)
    ∨ (st.cleanup = none ∧ ccProj (renderStep st p).2 = [(false, st.nextId)] ∧
        (renderStep st p).1.cleanup = some st.nextId ∧
        (renderStep st p).1.nextId = st.nextId + 1)
    ∨ (∃ b, st.cleanup = some b ∧
        ccProj (renderStep st p).2 = [(true, b), (false, st.nextId)] ∧
        (renderStep st p).1.cleanup = some st.nextId ∧
        (renderStep st p).1.nextId = st.nextId + 1) := by
  have hrender : renderStep st p
      = ((setupEffectStep (fetchStep st p).1 p).1,
         (fetchStep st p).2 ++ (setupEffectStep (fetchStep st p).1 p).2) := rfl
  obtain ⟨hf0, hf1, hf2⟩ := fetchStep_facts st p
  have hproj : ccProj (renderStep st p).2
      = ccProj (setupEffectStep (fetchStep st p).1 p).2 := by
    rw [hrender, ccProj_append, hf0, List.nil_append]
  have hst : (renderStep st p).1 = (setupEffectStep (fetchStep st p).1 p).1 := by
    rw [hrender]
  rcases setupEffectStep_cases (fetchStep st p).1 p with
    ⟨h0, h1, h2⟩ | ⟨b, hb, h0, h1, h2⟩ | ⟨hb, h0, h1, h2⟩ | ⟨b, hb, h0, h1, h2⟩
  · exact Or.inl ⟨by rw [hproj, h0], by rw [hst, h1, hf1], by rw [hst, h2, hf2]⟩
  · rw [hf1] at hb
    rw [hf2] at h2
    exact Or.inr (Or.inl ⟨b, hb, by rw [hproj, h0], by rw [hst, h1], by rw [hst, h2]⟩)
  · rw [hf1] at hb
    rw [hf2] at h0 h1 h2
    exact Or.inr (Or.inr (Or.inl ⟨hb, by rw [hproj, h0], by rw [hst, h1], by rw [hst, h2]⟩))
  · rw [hf1] at hb
    rw [hf2] at h0 h1 h2
    exact Or.inr (Or.inr (Or.inr ⟨b, hb, by rw [hproj, h0], by rw [hst, h1], by rw [hst, h2]⟩))

theorem runFrom_nil (st : MState) : runFrom st [] = (st, []) := rfl

theorem runFrom_cons (st : MState) (p : Props) (ps : List Props) :
    runFrom st (p :: ps)
      = ((runFrom (renderStep st p).1 ps).1,
         (renderStep st p).2 ++ (runFrom (renderStep st p).1 ps).2) := rfl

/-- Invariant induction for the teardown claim: starting from any machine
state, the create/close projection of the remaining trace (renders plus
unmount cleanup) is the closure of the currently open bridge, if any,
followed by an alternating create/close sequence over fresh, strictly
increasing bridge ids. -/
theorem runFrom_ccShape (ps : List Props) : ∀ st : MState, ∃ bs : List Nat,
    ccProj ((runFrom st ps).2 ++ (cleanupRun (runFrom st ps).1).2)
      = (match st.cleanup with
         | some b => (true, b) :: pairSeq bs
         | none => pairSeq bs)
    ∧ bs.Pairwise (· < ·) ∧ (∀ x ∈ bs, st.nextId ≤ x) := by
  induction ps with
  | nil =>
    intro st
    refine ⟨[], ?_, List.Pairwise.nil, by simp⟩
    rw [runFrom_nil]
    cases hcl : st.cleanup with
    | none =>
      rw [cleanupRun_none hcl]
      simp [ccProj, pairSeq]
    | some b =>
      rw [cleanupRun_some hcl]
      simp [ccProj, ccOf, pairSeq]
  | cons p ps ih =>
    intro st
    obtain ⟨bs1, hsh, hpw, hlb⟩ := ih (renderStep st p).1
    have hdec : ccProj ((runFrom st (p :: ps)).2 ++ (cleanupRun (runFrom st (p :: ps)).1).2)
        = ccProj (renderStep st p).2 ++
          ccProj ((runFrom (renderStep st p).1 ps).2 ++
            (cleanupRun (runFrom (renderStep st p).1 ps).1).2) := by
      rw [runFrom_cons]
      dsimp only
      rw [List.append_assoc, ccProj_append]
    rcases renderStep_cases st p with
      ⟨h0, h1, h2⟩ | ⟨b, hb, h0, h1, h2⟩ | ⟨hb, h0, h1, h2⟩ | ⟨b, hb, h0, h1, h2⟩
    · refine ⟨bs1, ?_, hpw, ?_⟩
      · rw [hdec, h0, List.nil_append, hsh, h1]
      · intro x hx
        have := hlb x hx
        rw [h2] at this
        exact this
    · refine ⟨bs1, ?_, hpw, ?_⟩
      · rw [hdec, h0, hsh, h1, hb]
        rfl
      · intro x hx
        have := hlb x hx
        rw [h2] at this
        exact this
    · refine ⟨st.nextId :: bs1, ?_, ?_, ?_⟩
      · rw [hdec, h0, hsh, h1, hb]
        rfl
      · refine List.Pairwise.cons ?_ hpw
        intro x hx
        have := hlb x hx
        rw [h2] at this
        omega
      · intro x hx
        rcases List.mem_cons.mp hx with hx | hx
        · omega
        · have := hlb x hx
          rw [h2] at this
          omega
    · refine ⟨st.nextId :: bs1, ?_, ?_, ?_⟩
      · rw [hdec, h0, hsh, h1, hb]
        rfl
      · refine List.Pairwise.cons ?_ hpw
        intro x hx
        have := hlb x hx
        rw [h2] at this
        omega
      · intro x hx
        rcases List.mem_cons.mp hx with hx | hx
        · omega
        · have := hlb x hx
          rw [h2] at this
          omega

/-- Auxiliary congruence for `find?` under a pointwise-equal predicate. -/
theorem find?_congr_pred {α : Type} {f g : α → Bool} :
    ∀ l : List α, (∀ a ∈ l, f a = g a) → l.find? f = l.find? g := by
  intro l
  induction l with
  | nil => intro _; rfl
  | cons a l ih =>
    intro h
    have ha := h a (List.mem_cons_self a l)
    simp only [List.find?]
    rw [ha]
    cases hg : g a with
    | true => rfl
    | false => exact ih fun x hx => h x (List.mem_cons_of_mem a hx)

/-- Helper for the no-`resourceUri` claim: with no uri on any render, the
run produces no events at all and never registers a cleanup. -/
theorem runFrom_no_uri (ps : List Props) : ∀ st : MState,
    (∀ p ∈ ps, p.resourceUri = none) → st.cleanup = none →
    (runFrom st ps).2 = [] ∧ (runFrom st ps).1.cleanup = none := by
  induction ps with
  | nil => intro st _ hcl; exact ⟨rfl, hcl⟩
  | cons p ps ih =>
    intro st hall hcl
    have hp : p.resourceUri = none := hall p (List.mem_cons_self p ps)
    have hrest : ∀ q ∈ ps, q.resourceUri = none :=
      fun q hq => hall q (List.mem_cons_of_mem p hq)
    have hfetch : (fetchStep st p).2 = [] ∧ (fetchStep st p).1.cleanup = st.cleanup := by
      unfold fetchStep
      by_cases h : st.lastUri = some p.resourceUri
      · rw [if_pos h]
        exact ⟨rfl, rfl⟩
      · rw [if_neg h, hp]
        exact ⟨rfl, rfl⟩
    have hsetup : (setupEffectStep (fetchStep st p).1 p).2 = [] ∧
        (setupEffectStep (fetchStep st p).1 p).1.cleanup = none := by
      by_cases hd : (fetchStep st p).1.lastDeps = some (p.resourceContent, p.hasClient)
      · rw [setupEffectStep_skip _ p hd]
        exact ⟨rfl, hfetch.2.trans hcl⟩
      · rw [setupEffectStep_run _ p hd]
        rw [cleanupRun_none (hfetch.2.trans hcl)]
        rw [effectBody_guard_true _ p (Or.inr (Or.inl hp))]
        exact ⟨rfl, hfetch.2.trans hcl⟩
    have hrender2 : (renderStep st p).2 = [] := by
      show (fetchStep st p).2 ++ (setupEffectStep (fetchStep st p).1 p).2 = []
      rw [hfetch.1, hsetup.1]
      rfl
    have hrender1 : (renderStep st p).1.cleanup = none := hsetup.2
    obtain ⟨h2, h1⟩ := ih (renderStep st p).1 hrest hrender1
    constructor
    · rw [runFrom_cons]
      dsimp only
      rw [hrender2, h2]
      rfl
    · exact h1

/-- When restricted to entries whose `text` field is absent or a string
(the shape the source's type annotation gives the entries), the selection
predicate is exactly "type is `\x22text\x22` and text is a non-empty
string". -/
theorem qualifies_eq_of_textOk {e : JValue} (h : textOk e = true) :
    qualifies e = (isTextStr (objField e "type") && nonEmptyText e) := by
  cases htx : objField e "text" with
  | none => simp [qualifies, nonEmptyText, htx]
  | some v =>
    simp only [textOk, htx] at h
    cases v with
    | str s => simp [qualifies, nonEmptyText, htx, truthy, strNonEmpty]
    | null => simp [isStrVal] at h
    | bool b => simp [isStrVal] at h
    | num n => simp [isStrVal] at h
    | arr l => simp [isStrVal] at h
    | obj l => simp [isStrVal] at h

/-! ## Claim theorems -/

/-- C1: over any sequence of renders followed by unmount, the
create/close projection of the full trace is an alternating sequence
`create b₀, close b₀, create b₁, close b₁, …` over strictly increasing
bridge ids.  Hence every bridge ever constructed (even partially — the
bridge construction is the first, synchronous step of `setupApp`) is
closed exactly once, and its closure strictly precedes the creation of
any later bridge — in particular, when tool A was `Ready` and tool B is
selected, A's bridge is closed before B's setup begins.  The statement is
universally quantified over every `HostEnv`, hence over both values of
`closeFails`: a failing `close()` (swallowed by `.catch(console.error)`
in the cleanup) changes nothing about the discard. -/
theorem c1_teardown_exactly_once_before_new_setup (ps : List Props) :
    ∃ bs : List Nat,
      ccProj (fullTrace ps) = pairSeq bs ∧ bs.Pairwise (· < ·) := by
  obtain ⟨bs, hsh, hpw, _⟩ := runFrom_ccShape ps initM
  exact ⟨bs, hsh, hpw⟩

/-- C2: the `initialized` flag (the `Ready` status) is on after a setup
attempt exactly when every prior step succeeded (iframe document
accessible, `contentWindow` present, `connect` did not throw) and the
guest fired the bridge's `oninitialized` callback; in particular `Ready`
is never reached when any prior setup step failed. -/
theorem c2_ready_only_via_handshake (env : HostEnv) (bid : Nat) (raw : String)
    (parsed : Option JValue) (cs : CState) (h : cs.initialized = false) :
    (setupApp env bid raw parsed cs).1.initialized = true ↔
      (env.iframeDocAccessible = true ∧ env.contentWindowPresent = true ∧
        env.connectError = none ∧ GuestEvent.initialized ∈ env.guestEvents) := by
  unfold setupApp
  by_cases h1 : env.iframeDocAccessible = false
  · simp [h1, h]
  · by_cases h2 : env.contentWindowPresent = false
    · simp [h1, h2, h]
    · cases h3 : env.connectError with
      | some e => simp [h1, h2, h3, h]
      | none =>
        rw [if_neg h1, if_neg h2]
        dsimp only
        rw [applyGuestEvents_initialized]
        simp [h1, h2, h]

theorem c2_witness :
    (setupApp
      { iframeDocAccessible := true, contentWindowPresent := true,
        connectError := none, guestEvents := [GuestEvent.initialized],
        closeFails := false }
      0 "<div>app</div>" none
      { loading := true, error := none, initialized := false, bridgeRef := none }
      ).1.initialized = true :=
  (c2_ready_only_via_handshake
    { iframeDocAccessible := true, contentWindowPresent := true,
      connectError := none, guestEvents := [GuestEvent.initialized],
      closeFails := false }
    0 "<div>app</div>" none
    { loading := true, error := none, initialized := false, bridgeRef := none }
    rfl).mpr ⟨rfl, rfl, rfl, List.mem_singleton.mpr rfl⟩

/-- A qualifying literal-text entry preceded by a `null` entry. -/
def c3Entry : JValue :=
  JValue.obj [("type", JValue.str "text"), ("text", JValue.str "PAYLOAD")]

def c3Entries : List JValue := [JValue.null, c3Entry]

def c3Envelope : JValue :=
  JValue.obj [("contents", JValue.arr c3Entries)]

/-- C3 counterexample: an envelope whose contents list holds a qualifying
literal-text entry (first such entry's text is `"PAYLOAD"`), yet
resolution returns the raw payload, not that text: the `find` callback
dereferences the preceding `null` entry, throws, and the `catch` falls
back to `raw`.  So "the text of the first such entry is returned" fails
as stated. -/
theorem c3_counterexample :
    c3Entries.find? qualifies = some c3Entry ∧
    entryText c3Entry = JValue.str "PAYLOAD" ∧
    resolveContent (some c3Envelope) "envelope-raw" = JValue.str "envelope-raw" ∧
    resolveContent (some c3Envelope) "envelope-raw" ≠ JValue.str "PAYLOAD" := by
  refine ⟨rfl, rfl, rfl, ?_⟩
  intro h
  have heq : resolveContent (some c3Envelope) "envelope-raw"
      = JValue.str "envelope-raw" := rfl
  rw [heq] at h
  injection h with h1
  exact absurd h1 (by decide)

/-- C3 (amended): resolution never raises (it is a total function) and
always yields a value: the raw string when parsing failed; when the parse
yielded an envelope with a contents array all of whose entries are
non-`null`, the text of the first qualifying literal-text entry (type
`"text"`, truthy text), or the raw string when no such entry exists; and
the raw string when the parse result carries no contents array. -/
theorem c3_resolution (parsed : Option JValue) (raw : String) :
    (parsed = none → resolveContent parsed raw = JValue.str raw) ∧
    (∀ p entries, parsed = some p →
      objField p "contents" = some (JValue.arr entries) →
      (∀ e ∈ entries, e ≠ JValue.null) →
      resolveContent parsed raw =
        (match entries.find? qualifies with
         | some e => entryText e
         | none => JValue.str raw)) ∧
    (∀ p, parsed = some p →
      (∀ entries, objField p "contents" ≠ some (JValue.arr entries)) →
      resolveContent parsed raw = JValue.str raw) := by
  refine ⟨?_, ?_, ?_⟩
  · intro h
    subst h
    rfl
  · intro p entries hp hc hnn
    subst hp
    have hg := getFieldE_of_ne_null p "contents" (objField_ne_null hc)
    have hf := findTextEntryE_of_no_null entries hnn
    cases hfind : entries.find? qualifies with
    | none =>
      rw [hfind] at hf
      simp [resolveContent, hg, hc, hf]
    | some e =>
      rw [hfind] at hf
      have hq := List.find?_some hfind
      obtain ⟨v, hv, htr⟩ := qualifies_text hq
      simp [resolveContent, hg, hc, hf, hv, htr, entryText]
  · intro p hp hno
    subst hp
    by_cases hn : p = JValue.null
    · subst hn
      simp [resolveContent, getFieldE]
    · have hg := getFieldE_of_ne_null p "contents" hn
      cases hc : objField p "contents" with
      | none => simp [resolveContent, hg, hc]
      | some v =>
        cases v with
        | arr es => exact absurd hc (hno es)
        | null => simp [resolveContent, hg, hc]
        | bool b => simp [resolveContent, hg, hc]
        | num n => simp [resolveContent, hg, hc]
        | str s => simp [resolveContent, hg, hc]
        | obj fs => simp [resolveContent, hg, hc]

/-- A well-formed envelope with a single qualifying literal-text entry. -/
def c3GoodEntry : JValue :=
  JValue.obj [("type", JValue.str "text"), ("text", JValue.str "<p>hello</p>")]

def c3GoodEnvelope : JValue :=
  JValue.obj [("contents", JValue.arr [c3GoodEntry])]

theorem c3_witness :
    resolveContent (some c3GoodEnvelope) "wrapped" = JValue.str "<p>hello</p>" ∧
    resolveContent none "<p>plain</p>" = JValue.str "<p>plain</p>" :=
  ⟨by
    have h := (c3_resolution (some c3GoodEnvelope) "wrapped").2.1 c3GoodEnvelope
      [c3GoodEntry] rfl rfl
      (by
        intro e he
        rw [List.mem_singleton] at he
        subst he
        exact fun hx => JValue.noConfusion hx)
    exact h.trans rfl,
   (c3_resolution none "<p>plain</p>").1 rfl⟩

/-- The post-handshake guest-error scenario: handshake succeeds, the
guest initializes, then reports "widget crashed". -/
def c4Env : HostEnv :=
  { iframeDocAccessible := true, contentWindowPresent := true,
    connectError := none,
    guestEvents := [GuestEvent.initialized, GuestEvent.errored "widget crashed"],
    closeFails := false }

def c4Props : Props :=
  { resourceUri := some "app-widget", permissions := none,
    resourceContent := "<div>app</div>", parsed := none, hasClient := true,
    env := c4Env }

def c4State : CState :=
  (setupApp c4Env 0 "<div>app</div>" none
    { loading := true, error := none, initialized := false, bridgeRef := none }).1

/-- C4 counterexample: after a post-handshake guest error "widget
crashed", the status is Failed with that reason and the banner shows it —
but the iframe is NOT hidden: its `display` is governed solely by
`loading`, which `oninitialized` already set to `false`, so the rendering
surface stays visible (`iframeShown = true`), contradicting "the
rendering surface (iframe) is hidden, being shown only at Ready". -/
theorem c4_counterexample :
    c4State.error = some "widget crashed" ∧
    (renderOf (fun _ => "") c4Props c4State).errorBanner = some "widget crashed" ∧
    (renderOf (fun _ => "") c4Props c4State).iframeShown = true :=
  ⟨rfl, rfl, rfl⟩

/-- C4 (amended): for every guest-reported error with non-empty message
`m` after a successful connect, the status becomes Failed with reason `m`
and the banner shows `m`; the iframe's visibility, however, is governed
solely by the `loading` flag — in particular, if the guest had already
initialized (post-handshake), the iframe remains visible despite the
Failed status. -/
theorem c4_guest_error_failed_banner (env : HostEnv) (bid : Nat) (raw : String)
    (parsed : Option JValue) (cs : CState) (pre : List GuestEvent) (m : String)
    (ba : Option JValue → String) (p : Props) (u : String)
    (h1 : env.iframeDocAccessible = true) (h2 : env.contentWindowPresent = true)
    (h3 : env.connectError = none)
    (h4 : env.guestEvents = pre ++ [GuestEvent.errored m])
    (h5 : m ≠ "") (h6 : p.resourceUri = some u) :
    (setupApp env bid raw parsed cs).1.error = some m ∧
    (renderOf ba p (setupApp env bid raw parsed cs).1).errorBanner = some m ∧
    (renderOf ba p (setupApp env bid raw parsed cs).1).iframeShown
      = !(setupApp env bid raw parsed cs).1.loading ∧
    (GuestEvent.initialized ∈ pre →
      (renderOf ba p (setupApp env bid raw parsed cs).1).iframeShown = true) := by
  have hsetup : (setupApp env bid raw parsed cs).1
      = (applyGuestEvents bid {cs with bridgeRef := some bid}
          (pre ++ [GuestEvent.errored m])).1 := by
    unfold setupApp
    rw [if_neg (by simp [h1]), if_neg (by simp [h2]), h3, h4]
  have herr : (setupApp env bid raw parsed cs).1.error = some m := by
    rw [hsetup, applyGuestEvents_error_last, if_neg h5]
  have hload : GuestEvent.initialized ∈ pre →
      (setupApp env bid raw parsed cs).1.loading = false := by
    intro hm
    rw [hsetup]
    exact applyGuestEvents_loading_of_mem _ bid (List.mem_append_left _ hm) _
  have hr6 : ¬p.resourceUri = none := by
    rw [h6]
    exact fun hx => Option.noConfusion hx
  refine ⟨herr, ?_, ?_, ?_⟩
  · simp [renderOf, hr6, herr, h5]
  · simp [renderOf, hr6]
  · intro hm
    simp [renderOf, hr6, hload hm]

theorem c4_witness :
    c4State.error = some "widget crashed" ∧
    (renderOf (fun _ => "allow") c4Props c4State).errorBanner
      = some "widget crashed" ∧
    (renderOf (fun _ => "allow") c4Props c4State).iframeShown = true := by
  have h := c4_guest_error_failed_banner c4Env 0 "<div>app</div>" none
    { loading := true, error := none, initialized := false, bridgeRef := none }
    [GuestEvent.initialized] "widget crashed" (fun _ => "allow") c4Props
    "app-widget" rfl rfl rfl rfl (by decide) rfl
  exact ⟨h.1, h.2.1, h.2.2.2 (List.mem_singleton.mpr rfl)⟩

/-- C5: when no render ever carries a `resourceUri`, the full trace is
empty — no resource read, no bridge creation, no document write, no
connect ever happens — and every render shows the configuration error
with no iframe mounted. -/
theorem c5_no_resource (ps : List Props) (ba : Option JValue → String)
    (cs : CState) (h : ∀ p ∈ ps, p.resourceUri = none) :
    fullTrace ps = [] ∧
    ∀ p ∈ ps, (renderOf ba p cs).configError = true ∧
      (renderOf ba p cs).iframePresent = false := by
  constructor
  · obtain ⟨h2, h1⟩ := runFrom_no_uri ps initM h rfl
    show (runFrom initM ps).2 ++ (cleanupRun (runFrom initM ps).1).2 = []
    rw [h2, cleanupRun_none h1]
    rfl
  · intro p hp
    have hn := h p hp
    constructor <;> simp [renderOf, hn]

def c5Env : HostEnv :=
  { iframeDocAccessible := true, contentWindowPresent := true,
    connectError := none, guestEvents := [], closeFails := false }

def c5Props : Props :=
  { resourceUri := none, permissions := none, resourceContent := "leftover",
    parsed := none, hasClient := true, env := c5Env }

theorem c5_witness :
    fullTrace [c5Props] = [] ∧
    (renderOf (fun _ => "") c5Props
      { loading := true, error := none, initialized := false, bridgeRef := none }
      ).configError = true := by
  have h := c5_no_resource [c5Props] (fun _ => "")
    { loading := true, error := none, initialized := false, bridgeRef := none }
    (by
      intro p hp
      rw [List.mem_singleton] at hp
      subst hp
      rfl)
  exact ⟨h.1, (h.2 c5Props (List.mem_singleton.mpr rfl)).1⟩

/-- C6: every failure during setup is caught at the `setupApp` boundary
(`setupApp` is a total function into states — nothing escapes) and turns
into `error = some reason` with `loading` cleared: an inaccessible iframe
document and a missing `contentWindow` fail with their HostUnavailable
messages, and a throwing `connect` fails with its message (or the generic
fallback for non-`Error` throwables). -/
theorem c6_failures_caught (env : HostEnv) (bid : Nat) (raw : String)
    (parsed : Option JValue) (cs : CState) :
    (env.iframeDocAccessible = false →
      (setupApp env bid raw parsed cs).1.error
          = some "Could not access iframe document" ∧
      (setupApp env bid raw parsed cs).1.loading = false) ∧
    (env.iframeDocAccessible = true → env.contentWindowPresent = false →
      (setupApp env bid raw parsed cs).1.error
          = some "Iframe contentWindow not available" ∧
      (setupApp env bid raw parsed cs).1.loading = false) ∧
    (∀ e, env.iframeDocAccessible = true → env.contentWindowPresent = true →
      env.connectError = some e →
      (setupApp env bid raw parsed cs).1.error = some (errMessage e) ∧
      (setupApp env bid raw parsed cs).1.loading = false) := by
  refine ⟨?_, ?_, ?_⟩
  · intro h1
    unfold setupApp
    rw [if_pos h1]
    exact ⟨rfl, rfl⟩
  · intro h1 h2
    unfold setupApp
    rw [if_neg (by simp [h1]), if_pos h2]
    exact ⟨rfl, rfl⟩
  · intro e h1 h2 h3
    unfold setupApp
    rw [if_neg (by simp [h1]), if_neg (by simp [h2]), h3]
    exact ⟨rfl, rfl⟩

def c6Env : HostEnv :=
  { iframeDocAccessible := false, contentWindowPresent := true,
    connectError := none, guestEvents := [], closeFails := false }

theorem c6_witness :
    (setupApp c6Env 0 "<div>app</div>" none
      { loading := true, error := none, initialized := false, bridgeRef := none }
      ).1.error = some "Could not access iframe document" :=
  ((c6_failures_caught c6Env 0 "<div>app</div>" none
    { loading := true, error := none, initialized := false, bridgeRef := none }
    ).1 rfl).1

/-- C7: whenever the iframe renders (a `resourceUri` is declared), its
sandbox attribute is exactly the fixed minimal flag set
`"allow-scripts allow-same-origin"` and its allow attribute is exactly
the permission mapper's output on the tool's declared permissions — for
every tool, every permission set, every component state and every
mapper. -/
theorem c7_sandbox_fixed (ba : Option JValue → String) (p : Props) (cs : CState)
    (u : String) (h : p.resourceUri = some u) :
    (renderOf ba p cs).sandbox = "allow-scripts allow-same-origin" ∧
    (renderOf ba p cs).allow = ba p.permissions := by
  have hn : ¬p.resourceUri = none := by
    rw [h]
    exact fun hx => Option.noConfusion hx
  constructor <;> simp [renderOf, hn]

def c7Env : HostEnv :=
  { iframeDocAccessible := true, contentWindowPresent := true,
    connectError := none, guestEvents := [], closeFails := false }

def c7Props : Props :=
  { resourceUri := some "widget-ui", permissions := some (JValue.obj []),
    resourceContent := "", parsed := none, hasClient := false, env := c7Env }

theorem c7_witness :
    (renderOf (fun _ => "camera") c7Props
      { loading := true, error := none, initialized := false, bridgeRef := none }
      ).sandbox = "allow-scripts allow-same-origin" ∧
    (renderOf (fun _ => "camera") c7Props
      { loading := true, error := none, initialized := false, bridgeRef := none }
      ).allow = "camera" :=
  ⟨(c7_sandbox_fixed (fun _ => "camera") c7Props
      { loading := true, error := none, initialized := false, bridgeRef := none }
      "widget-ui" rfl).1,
   (c7_sandbox_fixed (fun _ => "camera") c7Props
      { loading := true, error := none, initialized := false, bridgeRef := none }
      "widget-ui" rfl).2⟩

/-- C8: resolution is idempotent in the specified sense: already-resolved
markup — markup that is not itself a JSON document, so its re-parse
fails — resolves to itself unchanged, and a structured envelope whose
contents list has no qualifying literal-text entry resolves to the raw
envelope input unchanged (`P` is the parse oracle standing for
`JSON.parse`). -/
theorem c8_idempotent (P : String → Option JValue) (m raw : String) (p : JValue)
    (entries : List JValue) :
    (P m = none → resolveContent (P m) m = JValue.str m) ∧
    (P raw = some p → objField p "contents" = some (JValue.arr entries) →
      (∀ e ∈ entries, qualifies e = false) →
      resolveContent (P raw) raw = JValue.str raw) := by
  constructor
  · intro h
    rw [h]
    rfl
  · intro hp hc hnq
    rw [hp]
    exact resolveContent_raw_of_no_qualifying raw hc hnq

def c8Envelope : JValue :=
  JValue.obj [("contents", JValue.arr [JValue.obj [("type", JValue.str "image")]])]

theorem c8_witness :
    resolveContent none "<div>already resolved</div>"
        = JValue.str "<div>already resolved</div>" ∧
    resolveContent (some c8Envelope) "raw-envelope" = JValue.str "raw-envelope" :=
  ⟨(c8_idempotent (fun _ => none) "<div>already resolved</div>" "x"
      JValue.null []).1 rfl,
   (c8_idempotent (fun _ => some c8Envelope) "m" "raw-envelope" c8Envelope
      [JValue.obj [("type", JValue.str "image")]]).2 rfl rfl
    (by
      intro e he
      rw [List.mem_singleton] at he
      subst he
      rfl)⟩

/-- C9: a text-typed entry with absent or empty text is never selected:
when every text-typed entry of the contents list has missing or empty
text, resolution returns the raw envelope string; and on entry lists of
the annotated shape (non-`null` entries whose `text` is absent or a
string), the selected entry is exactly the first whose type is `"text"`
and whose text is a non-empty string. -/
theorem c9_empty_text_never_selected (p : JValue) (entries : List JValue)
    (raw : String) (hc : objField p "contents" = some (JValue.arr entries)) :
    ((∀ e ∈ entries, isTextStr (objField e "type") = true →
        objField e "text" = none ∨ objField e "text" = some (JValue.str "")) →
      resolveContent (some p) raw = JValue.str raw) ∧
    ((∀ e ∈ entries, e ≠ JValue.null ∧ textOk e = true) →
      findTextEntryE entries
        = Except.ok (entries.find? (fun e =>
            isTextStr (objField e "type") && nonEmptyText e))) := by
  constructor
  · intro h
    apply resolveContent_raw_of_no_qualifying raw hc
    intro e he
    by_cases hty : isTextStr (objField e "type")
    · rcases h e he hty with htx | htx
      · unfold qualifies
        rw [htx]
        simp
      · unfold qualifies
        rw [htx]
        simp [truthy]
    · unfold qualifies
      simp [hty]
  · intro h
    have hnn : ∀ e ∈ entries, e ≠ JValue.null := fun e he => (h e he).1
    rw [findTextEntryE_of_no_null entries hnn]
    have hcong : entries.find? qualifies
        = entries.find? (fun e => isTextStr (objField e "type") && nonEmptyText e) :=
      find?_congr_pred entries fun e he => qualifies_eq_of_textOk (h e he).2
    rw [hcong]

def c9Entries : List JValue :=
  [JValue.obj [("type", JValue.str "text"), ("text", JValue.str "")],
   JValue.obj [("type", JValue.str "text")]]

def c9Envelope : JValue :=
  JValue.obj [("contents", JValue.arr c9Entries)]

theorem c9_witness :
    resolveContent (some c9Envelope) "fallback" = JValue.str "fallback" ∧
    findTextEntryE c9Entries = Except.ok none := by
  have h := c9_empty_text_never_selected c9Envelope c9Entries "fallback" rfl
  refine ⟨h.1 ?_, (h.2 ?_).trans rfl⟩
  · intro e he
    rcases List.mem_cons.mp he with he | he
    · subst he
      intro _
      exact Or.inr rfl
    · rw [List.mem_singleton] at he
      subst he
      intro _
      exact Or.inl rfl
  · intro e he
    rcases List.mem_cons.mp he with he | he
    · subst he
      exact ⟨fun hx => JValue.noConfusion hx, rfl⟩
    · rw [List.mem_singleton] at he
      subst he
      exact ⟨fun hx => JValue.noConfusion hx, rfl⟩

/-- C10: when the tools list updates, if the selected tool's name is
absent from the tools carrying UI metadata, the selection resets to
`none` and the embedded renderer is no longer mounted (torn down rather
than kept alive). -/
theorem c10_stale_selection_reset (tools : List ToolD) (st : ToolD)
    (h : ∀ t ∈ tools, hasUIMetadata t = true → t.name ≠ st.name) :
    (appsTabUpdate tools (some st)).2 = none ∧
    rendererMounted (appsTabUpdate tools (some st)).2 = false := by
  have hfind : (tools.filter hasUIMetadata).find? (fun t => t.name == st.name)
      = none := by
    rw [List.find?_eq_none]
    intro t ht
    rw [List.mem_filter] at ht
    simp only [beq_iff_eq]
    exact h t ht.1 ht.2
  constructor
  · unfold appsTabUpdate
    dsimp only
    rw [hfind]
  · unfold appsTabUpdate rendererMounted
    dsimp only
    rw [hfind]
    rfl

def c10Tools : List ToolD :=
  [{ name := "alpha", resourceUri := some "alpha-ui" },
   { name := "beta", resourceUri := none }]

def c10Sel : ToolD := { name := "beta", resourceUri := some "beta-ui" }

theorem c10_witness :
    (appsTabUpdate c10Tools (some c10Sel)).2 = none :=
  (c10_stale_selection_reset c10Tools c10Sel (by decide)).1

end Inspector
